import Mathlib

/-!
Verification development for the calameo-downloader pipeline (src/main.py).

Python strings are modelled as `List Char`.  Python's `str.split(sep)` for a
non-empty separator (scan left to right, cut at each non-overlapping
occurrence) is modelled by `pySplit`; fuel-based recursion keeps the
definition kernel-computable.  External collaborators (the HTTP client, the
filesystem, PIL image decoding) are modelled as oracle parameters; the code
of src/main.py itself is transcribed faithfully.
-/

/-- Models Python `sep in s` (substring containment) for `List Char`. -/
def containsSub (sep : List Char) : List Char → Bool
  | [] => sep.isEmpty
  | c :: rest => sep.isPrefixOf (c :: rest) || containsSub sep rest

/-- Fuel-driven worker for `pySplit`.  One unit of fuel is spent per character
position examined, so fuel `s.length` always suffices. -/
def pySplitFuel (sep : List Char) : Nat → List Char → List (List Char)
  | _, [] => [[]]
  | 0, s => [s]
  | fuel + 1, c :: rest =>
    if sep.isPrefixOf (c :: rest) then
      [] :: pySplitFuel sep fuel (rest.drop (sep.length - 1))
    else
      match pySplitFuel sep fuel rest with
      | [] => [[c]]
      | h :: t => (c :: h) :: t

/-- Models Python `s.split(sep)` for a non-empty separator. -/
def pySplit (sep s : List Char) : List (List Char) :=
  pySplitFuel sep s.length s

/-- Fuel-driven count of the non-overlapping occurrences of `sep` in a string,
scanning left to right exactly as Python `str.split` does. -/
def occCountFuel (sep : List Char) : Nat → List Char → Nat
  | _, [] => 0
  | 0, _ => 0
  | fuel + 1, c :: rest =>
    if sep.isPrefixOf (c :: rest) then
      occCountFuel sep fuel (rest.drop (sep.length - 1)) + 1
    else
      occCountFuel sep fuel rest

/-- Number of non-overlapping occurrences of `sep` in `s`, scanned left to
right (the occurrences Python `str.split` cuts at). -/
def occCount (sep s : List Char) : Nat :=
  occCountFuel sep s.length s

/-- Models Python `s.split(sep)` for a single-character separator, by
structural recursion (used for the `"."` and `"?"` splits of the fetcher). -/
def splitChar (sep : Char) : List Char → List (List Char)
  | [] => [[]]
  | c :: rest =>
    if c = sep then [] :: splitChar sep rest
    else
      match splitChar sep rest with
      | [] => [[c]]
      | h :: t => (c :: h) :: t

/-- Models Python `s.replace(old, new)` (for non-empty `old`), via the
identity `s.replace(old, new) = new.join(s.split(old))`. -/
def pyReplace (old new s : List Char) : List Char :=
  List.intercalate new (pySplit old s)

/-- Models Python `s.strip()`: whitespace removed from both ends. -/
def pyStrip (s : List Char) : List Char :=
  ((s.dropWhile Char.isWhitespace).reverse.dropWhile Char.isWhitespace).reverse

/-- Models Python `int(s)` on an already-stripped decimal string: an optional
sign followed by at least one digit; any other shape raises `ValueError`,
modelled as `none`. -/
def digitsToNat : List Char → Option Nat
  | [] => none
  | s =>
    if s.all Char.isDigit then
      some (s.foldl (fun acc c => acc * 10 + (c.toNat - '0'.toNat)) 0)
    else none

/-- Models Python `int(s)` (sign handling on top of `digitsToNat`). -/
def pyInt (s : List Char) : Option Int :=
  match s with
  | '-' :: rest => (digitsToNat rest).map (fun n => -(n : Int))
  | '+' :: rest => (digitsToNat rest).map (fun n => (n : Int))
  | _ => (digitsToNat s).map (fun n => (n : Int))

/-- The first-page marker literal `"p1."` of src/main.py line 63. -/
def marker : List Char := ['p', '1', '.']

/-- src/main.py lines 61-65, `generate_all_page_urls`:
`prefix, file_ext = first_page_url.split("p1.")` followed by
`[f"{prefix}p{i}.{file_ext}" for i in range(1, total_pages + 1)]`.
The tuple unpacking raises `ValueError` (modelled as `none`) unless the split
yields exactly two parts. -/
def generate_all_page_urls (first_page_url : List Char) (total_pages : Int) :
    Option (List (List Char)) :=
  match pySplit marker first_page_url with
  | [pre, file_ext] =>
    some ((List.range' 1 total_pages.toNat).map
      (fun i => pre ++ 'p' :: Nat.toDigits 10 i ++ '.' :: file_ext))
  | _ => none

example : pySplit marker "x/p1.jpg".data = ["x/".data, "jpg".data] := by decide

example : generate_all_page_urls "x/p1.jpg".data 5 =
    some ["x/p1.jpg".data, "x/p2.jpg".data, "x/p3.jpg".data,
          "x/p4.jpg".data, "x/p5.jpg".data] := by decide

example : generate_all_page_urls "p1.p1.jpg".data 1 = none := by decide

example : occCount marker "p1.p1.jpg".data = 2 := by decide

/-- src/main.py lines 77-78: the scratch filename for loop index `i`
(0-based), `f"downloads/page_{i+1}.{ext.split('?')[0]}"` with
`ext = url.split(".")[-1]`. -/
def page_filename (i : Nat) (url : List Char) : List Char :=
  let ext := (splitChar '.' url).getLastD []
  "downloads/page_".data ++ Nat.toDigits 10 (i + 1) ++
    '.' :: (splitChar '?' ext).headD []

/-- src/main.py lines 76-89, the fetch loop of `download_all_images`,
keeping the loop index paired with each appended path.  `fileExists` models
`os.path.exists` and `fetchOk url` models "`requests.get(url)` plus the file
write raised no exception".  A failed iteration appends nothing and the loop
continues. -/
def download_go (fileExists fetchOk : List Char → Bool) :
    Nat → List (List Char) → List (Nat × List Char)
  | _, [] => []
  | i, url :: rest =>
    let filename := page_filename i url
    if fileExists filename then
      (i + 1, filename) :: download_go fileExists fetchOk (i + 1) rest
    else if fetchOk url then
      (i + 1, filename) :: download_go fileExists fetchOk (i + 1) rest
    else
      download_go fileExists fetchOk (i + 1) rest

/-- src/main.py lines 68-92, `download_all_images`: the list of filepaths the
loop appends, in loop order. -/
def download_all_images (fileExists fetchOk : List Char → Bool)
    (image_urls : List (List Char)) : List (List Char) :=
  (download_go fileExists fetchOk 0 image_urls).map Prod.snd

/-- An HTTP GET request as issued by the fetcher; `timeout` records the
timeout argument passed to `requests.get`, if any. -/
structure HttpRequest where
  url : List Char
  timeout : Option Nat
  deriving DecidableEq

/-- src/main.py line 83: `r = requests.get(url)` — the call passes no
timeout argument. -/
def requests_get_request (url : List Char) : HttpRequest :=
  { url := url, timeout := none }

/-- The sequence of HTTP requests issued by the fetch loop of
`download_all_images` (src/main.py lines 76-89): one `requests.get(url)` per
location whose target file does not already exist. -/
def download_requests (fileExists : List Char → Bool) :
    Nat → List (List Char) → List HttpRequest
  | _, [] => []
  | i, url :: rest =>
    if fileExists (page_filename i url) then
      download_requests fileExists (i + 1) rest
    else
      requests_get_request url :: download_requests fileExists (i + 1) rest

/-- The failure modes of `parse_document_info` (src/main.py lines 32-58):
the three explicit `raise Exception(...)` sites plus the `ValueError` that
`int(length_text)` raises on a malformed length. -/
inductive ParseErr where
  | noDescription
  | noLength
  | badLength
  | noPageImg
  deriving DecidableEq

/-- The rendered-markup facts `parse_document_info` consumes:
`metaDesc` is the `content` of `soup.find("meta", attrs={"name":
"description"})` (absent tag modelled as `none`), and `pageImgSrc` is the
`src` of `soup.find("img", class_="page")` (absent tag modelled as `none`). -/
structure Soup where
  metaDesc : Option (List Char)
  pageImgSrc : Option (List Char)

/-- src/main.py lines 41-43: the parsed title, defaulting to the placeholder
`"CalameoBook"` when `"Title:"` does not occur in the description. -/
def parsed_title (desc : List Char) : List Char :=
  if containsSub "Title:".data desc then
    pyStrip ((pySplit ", Author".data
      ((pySplit "Title:".data desc).getD 1 [])).headD [])
  else "CalameoBook".data

/-- src/main.py lines 47-48: the text between `"Length:"` and `" pages"`,
stripped and fed to `int(...)`. -/
def parsed_length (desc : List Char) : Option Int :=
  pyInt (pyStrip ((pySplit " pages".data
    ((pySplit "Length:".data desc).getD 1 [])).headD []))

/-- src/main.py lines 32-58, `parse_document_info`: returns the
(title, length, first page URL) triple or the first failure encountered, in
source order (description, title default, length, page image). -/
def parse_document_info (soup : Soup) :
    Except ParseErr (List Char × Int × List Char) :=
  match soup.metaDesc with
  | none => .error .noDescription
  | some desc =>
    let title := parsed_title desc
    if containsSub "Length:".data desc then
      match parsed_length desc with
      | none => .error .badLength
      | some length =>
        match soup.pageImgSrc with
        | none => .error .noPageImg
        | some src => .ok (title, length, src)
    else .error .noLength

/-- One page of the assembled PDF as built by `convert_images_to_pdf`:
`canvas` is the page format fixed at `FPDF(unit="pt", format=[width,
height])` construction time, `imagePath` the image placed on the page, and
`x, y, w, h` the placement arguments of `pdf.image(...)`. -/
structure PdfPage where
  canvas : Nat × Nat
  imagePath : List Char
  x : Int
  y : Int
  w : Nat
  h : Nat

/-- src/main.py lines 104-107: an `.svgz`/`.svg` asset is rasterized to a
`.png` whose path is obtained by
`image_path.replace(".svgz", ".png").replace(".svg", ".png")`; any other
asset is used as is. -/
def raster_path (p : List Char) : List Char :=
  if (".svgz".data).isSuffixOf p || (".svg".data).isSuffixOf p then
    pyReplace ".svg".data ".png".data (pyReplace ".svgz".data ".png".data p)
  else p

/-- src/main.py lines 95-115, `convert_images_to_pdf`.  `imgSize p` models
`Image.open(p).size`.  `Image.open(image_paths[0])` raises `IndexError` on an
empty list (modelled as `none`); otherwise the document format is the first
asset's dimensions and the loop appends one page per asset, each page using
the document format and placing the asset at (-50, -50) scaled to
(width+100, height+100). -/
def convert_images_to_pdf (imgSize : List Char → Nat × Nat)
    (image_paths : List (List Char)) :
    Option ((Nat × Nat) × List PdfPage) :=
  match image_paths with
  | [] => none
  | p0 :: _ =>
    let wh := imgSize p0
    some (wh, image_paths.map (fun p =>
      { canvas := wh, imagePath := raster_path p, x := -50, y := -50,
        w := wh.1 + 100, h := wh.2 + 100 }))

/-- One iteration of the metadata polling loop of `main`
(src/main.py lines 134-140): once the descriptor is obtained it is kept;
otherwise `parse_document_info` is attempted on the current markup and any
exception is swallowed (`except Exception: pass`), leaving the state
unchanged. -/
def poll_step (soup : Soup) (st : Option (List Char × Int × List Char)) :
    Option (List Char × Int × List Char) :=
  match st with
  | some r => some r
  | none =>
    match parse_document_info soup with
    | .ok r => some r
    | .error _ => none

/-- The polling loop of `main` after `k` iterations, reading the markup
rendered at iteration `j` as `soups j`: `title` starts as `None` and the loop
body runs while it is still `None`. -/
def poll_run (soups : Nat → Soup) : Nat → Option (List Char × Int × List Char)
  | 0 => none
  | k + 1 => poll_step (soups k) (poll_run soups k)

example : page_filename 2 "x/p3.jpg?v=2".data = "downloads/page_3.jpg".data := by
  decide

example :
    parse_document_info
      { metaDesc := some "Read X Title: MyBook, Author: Z, Length: 12 pages, etc".data,
        pageImgSrc := some "x/p1.jpg".data } =
      .ok ("MyBook".data, 12, "x/p1.jpg".data) := by rfl

example :
    parse_document_info
      { metaDesc := some "Length: 0 pages".data,
        pageImgSrc := some "x/p1.jpg".data } =
      .ok ("CalameoBook".data, 0, "x/p1.jpg".data) := by rfl

theorem pySplitFuel_ne_nil (sep : List Char) (fuel : Nat) (s : List Char) :
    pySplitFuel sep fuel s ≠ [] := by
  match fuel, s with
  | _, [] => simp [pySplitFuel]
  | 0, c :: rest => simp [pySplitFuel]
  | fuel + 1, c :: rest =>
    simp only [pySplitFuel]
    split
    · simp
    · split <;> simp

theorem length_pySplitFuel (sep : List Char) :
    ∀ (fuel : Nat) (s : List Char),
      (pySplitFuel sep fuel s).length = occCountFuel sep fuel s + 1
  | fuel, [] => by simp [pySplitFuel, occCountFuel]
  | 0, c :: rest => by simp [pySplitFuel, occCountFuel]
  | fuel + 1, c :: rest => by
    simp only [pySplitFuel, occCountFuel]
    split
    · have ih := length_pySplitFuel sep fuel (rest.drop (sep.length - 1))
      simp [ih]
    · have hne := pySplitFuel_ne_nil sep fuel rest
      have ih := length_pySplitFuel sep fuel rest
      cases hrec : pySplitFuel sep fuel rest with
      | nil => exact absurd hrec hne
      | cons h t =>
        rw [hrec] at ih
        simp at ih ⊢
        omega

theorem length_pySplit (sep s : List Char) :
    (pySplit sep s).length = occCount sep s + 1 :=
  length_pySplitFuel sep s.length s

/-- C1: for a sample containing the first-page marker "p1." exactly once
(splitting it into a prefix and a suffix) and any count N ≥ 1,
generate_all_page_urls returns exactly N locations whose i-th element
(1 ≤ i ≤ N) is prefix ++ "p" ++ i ++ "." ++ suffix, preserving the suffix
verbatim. -/
theorem C1_generate_all_page_urls_expands
    (s pre suf : List Char) (n : Nat)
    (hsplit : pySplit marker s = [pre, suf]) (hn : 1 ≤ n) :
    ∃ urls, generate_all_page_urls s (n : Int) = some urls ∧
      urls.length = n ∧
      ∀ i, 1 ≤ i → i ≤ n →
        urls[i - 1]? = some (pre ++ 'p' :: Nat.toDigits 10 i ++ '.' :: suf) := by
  refine ⟨(List.range' 1 n).map
    (fun i => pre ++ 'p' :: Nat.toDigits 10 i ++ '.' :: suf), ?_, ?_, ?_⟩
  · unfold generate_all_page_urls
    rw [hsplit]
    simp
  · simp
  · intro i h1 h2
    have hi : i - 1 < n := by omega
    rw [List.getElem?_map, List.getElem?_range' _ _ hi]
    have hidx : 1 + 1 * (i - 1) = i := by omega
    rw [hidx]
    rfl

/-- C1 witness: count 5 and sample "x/p1.jpg"; the location at (1-based)
index 3 is "x/p3.jpg". -/
theorem C1_witness :
    pySplit marker "x/p1.jpg".data = ["x/".data, "jpg".data] ∧
    (1 ≤ 5 ∧
    ∃ urls, generate_all_page_urls "x/p1.jpg".data ((5 : Nat) : Int) = some urls ∧
      urls.length = 5 ∧ urls[2]? = some "x/p3.jpg".data) := by
  constructor
  · decide
  constructor
  · decide
  obtain ⟨urls, h1, h2, h3⟩ :=
    C1_generate_all_page_urls_expands "x/p1.jpg".data "x/".data "jpg".data 5
      (by decide) (by decide)
  refine ⟨urls, h1, h2, ?_⟩
  have h4 := h3 3 (by decide) (by decide)
  simpa using h4

/-- C2 counterexample: the sample "p1.p1.jpg" contains the marker "p1.", yet
generate_all_page_urls fails on it (the split yields three parts and the
tuple unpacking raises), so the function is not total on samples containing
the marker, and failure is not equivalent to the marker being absent. -/
theorem C2_counterexample :
    containsSub marker "p1.p1.jpg".data = true ∧
    generate_all_page_urls "p1.p1.jpg".data 1 = none := by
  exact ⟨by decide, by decide⟩

/-- C2 (amended): generate_all_page_urls succeeds exactly when the sample
contains the marker "p1." exactly once (one non-overlapping occurrence); it
fails both when the marker is absent and when it occurs more than once. -/
theorem C2_generate_succeeds_iff_marker_once (s : List Char) (n : Int) :
    (generate_all_page_urls s n).isSome = true ↔ occCount marker s = 1 := by
  have hlen := length_pySplit marker s
  unfold generate_all_page_urls
  cases h : pySplit marker s with
  | nil => rw [h] at hlen; simp at hlen
  | cons a t =>
    cases t with
    | nil =>
      rw [h] at hlen
      simp at hlen
      simp
      omega
    | cons b t2 =>
      cases t2 with
      | nil =>
        rw [h] at hlen
        simp at hlen
        simp
        omega
      | cons c t3 =>
        rw [h] at hlen
        simp at hlen
        simp
        omega

theorem download_go_cons (fe fo : List Char → Bool) (i0 : Nat) (u : List Char)
    (rest : List (List Char)) :
    download_go fe fo i0 (u :: rest) =
      if (fe (page_filename i0 u) || fo u) = true then
        (i0 + 1, page_filename i0 u) :: download_go fe fo (i0 + 1) rest
      else download_go fe fo (i0 + 1) rest := by
  simp only [download_go]
  by_cases h1 : fe (page_filename i0 u) <;> by_cases h2 : fo u <;> simp [h1, h2]

theorem download_go_fst_sublist (fe fo : List Char → Bool) :
    ∀ (urls : List (List Char)) (i0 : Nat),
      ((download_go fe fo i0 urls).map Prod.fst).Sublist
        (List.range' (i0 + 1) urls.length)
  | [], i0 => by simp [download_go]
  | u :: rest, i0 => by
    have ih := download_go_fst_sublist fe fo rest (i0 + 1)
    rw [download_go_cons, List.length_cons, List.range'_succ]
    split
    · rw [List.map_cons]
      exact List.Sublist.cons₂ _ ih
    · exact List.Sublist.cons _ ih

theorem download_go_fst_lower (fe fo : List Char → Bool)
    (urls : List (List Char)) (i0 j : Nat)
    (h : j ∈ (download_go fe fo i0 urls).map Prod.fst) : i0 + 1 ≤ j := by
  have hsub := download_go_fst_sublist fe fo urls i0
  have hmem := hsub.subset h
  rw [List.mem_range'] at hmem
  omega

theorem download_go_fst_mem_iff (fe fo : List Char → Bool) :
    ∀ (urls : List (List Char)) (i0 i : Nat) (url : List Char),
      urls[i]? = some url →
      ((i0 + i + 1) ∈ (download_go fe fo i0 urls).map Prod.fst ↔
        (fe (page_filename (i0 + i) url) || fo url) = true)
  | [], i0, i, url => by simp
  | u :: rest, i0, 0, url => by
    intro h
    simp only [List.getElem?_cons_zero, Option.some_inj] at h
    subst h
    simp only [Nat.add_zero]
    rw [download_go_cons]
    constructor
    · intro hmem
      by_contra hfail
      rw [if_neg hfail] at hmem
      have := download_go_fst_lower fe fo rest (i0 + 1) (i0 + 0 + 1) hmem
      omega
    · intro hs
      rw [if_pos hs, List.map_cons, List.mem_cons]
      left
      omega
  | u :: rest, i0, i + 1, url => by
    intro h
    simp only [List.getElem?_cons_succ] at h
    have ih := download_go_fst_mem_iff fe fo rest (i0 + 1) i url h
    rw [download_go_cons]
    have harith : i0 + (i + 1) + 1 = i0 + 1 + i + 1 := by omega
    have harith2 : i0 + (i + 1) = i0 + 1 + i := by omega
    rw [harith, harith2]
    split
    · rw [List.map_cons, List.mem_cons]
      constructor
      · rintro (heq | hmem)
        · exfalso; omega
        · exact ih.mp hmem
      · intro hs
        right
        exact ih.mpr hs
    · exact ih

/-- C3: the indices of the assets the fetch loop returns form a sub-sequence
of the input indices 1..n in strictly ascending order (no reordering, no
duplication); an index is present exactly when its asset was obtained (the
target file existed or the fetch succeeded) and omitted exactly when its
retrieval failed; a single failure never aborts the batch, every remaining
location still being attempted; and download_all_images returns exactly the
paths of these assets. -/
theorem C3_download_indices (fe fo : List Char → Bool)
    (urls : List (List Char)) :
    ((download_go fe fo 0 urls).map Prod.fst).Sublist
      (List.range' 1 urls.length) ∧
    ((download_go fe fo 0 urls).map Prod.fst).Pairwise (· < ·) ∧
    (∀ i url, urls[i]? = some url →
      ((i + 1) ∈ (download_go fe fo 0 urls).map Prod.fst ↔
        (fe (page_filename i url) || fo url) = true)) ∧
    download_all_images fe fo urls = (download_go fe fo 0 urls).map Prod.snd := by
  refine ⟨download_go_fst_sublist fe fo urls 0, ?_, ?_, rfl⟩
  · exact List.Pairwise.sublist (download_go_fst_sublist fe fo urls 0)
      (List.pairwise_lt_range' 1 urls.length)
  · intro i url h
    have := download_go_fst_mem_iff fe fo urls 0 i url h
    simpa using this

/-- C3 witness: two locations, the first fetch succeeding and the second
failing; index 1 is in the returned index sequence. -/
theorem C3_witness :
    ((["a.jpg".data, "b.jpg".data] : List (List Char))[0]? =
      some "a.jpg".data) ∧
    1 ∈ (download_go (fun _ => false) (fun u => u == "a.jpg".data) 0
      ["a.jpg".data, "b.jpg".data]).map Prod.fst := by
  have h := C3_download_indices (fun _ => false) (fun u => u == "a.jpg".data)
    ["a.jpg".data, "b.jpg".data]
  exact ⟨rfl, (h.2.2.1 0 "a.jpg".data rfl).mpr (by decide)⟩

theorem splitChar_ne_nil (c : Char) (s : List Char) : splitChar c s ≠ [] := by
  match s with
  | [] => simp [splitChar]
  | x :: rest =>
    simp only [splitChar]
    split
    · simp
    · split <;> simp

theorem splitChar_of_not_mem (c : Char) :
    ∀ (s : List Char), c ∉ s → splitChar c s = [s]
  | [], _ => rfl
  | x :: rest, h => by
    have hx : ¬ x = c := fun hh => h (by simp [hh])
    have hr : c ∉ rest := fun hh => h (List.mem_cons_of_mem _ hh)
    simp only [splitChar, if_neg hx]
    rw [splitChar_of_not_mem c rest hr]

theorem splitChar_cons (c x : Char) (rest : List Char) :
    splitChar c (x :: rest) =
      if x = c then [] :: splitChar c rest
      else (x :: (splitChar c rest).headD []) :: (splitChar c rest).tail := by
  cases h : splitChar c rest with
  | nil => exact absurd h (splitChar_ne_nil c rest)
  | cons hd tl =>
    by_cases hx : x = c <;> simp [splitChar, hx, h]

theorem splitChar_append_cons (c : Char) :
    ∀ (a b : List Char),
      splitChar c (a ++ c :: b) = splitChar c a ++ splitChar c b
  | [], b => by
    rw [List.nil_append, splitChar_cons c c b]
    simp [splitChar]
  | x :: a', b => by
    rw [List.cons_append, splitChar_cons c x (a' ++ c :: b), splitChar_cons c x a',
      splitChar_append_cons c a' b]
    by_cases hx : x = c
    · simp [hx]
    · simp only [if_neg hx]
      cases h : splitChar c a' with
      | nil => exact absurd h (splitChar_ne_nil c a')
      | cons hd tl => simp [h]

theorem page_filename_query (i : Nat) (b e q : List Char)
    (he : '.' ∉ e) (he2 : '?' ∉ e) (hq : '.' ∉ q) :
    page_filename i (b ++ '.' :: (e ++ '?' :: q)) =
      "downloads/page_".data ++ Nat.toDigits 10 (i + 1) ++ '.' :: e := by
  simp only [page_filename]
  have hnm : '.' ∉ e ++ '?' :: q := by
    intro hmem
    rcases List.mem_append.mp hmem with h | h
    · exact he h
    · rcases List.mem_cons.mp h with h | h
      · exact absurd h (by decide)
      · exact hq h
  rw [splitChar_append_cons '.' b (e ++ '?' :: q),
    splitChar_of_not_mem _ _ hnm, List.getLastD_concat,
    splitChar_append_cons '?' e q, splitChar_of_not_mem _ _ he2]
  rfl

theorem download_go_mem_pair (fe fo : List Char → Bool) :
    ∀ (urls : List (List Char)) (i0 i : Nat) (url : List Char),
      urls[i]? = some url →
      (fe (page_filename (i0 + i) url) || fo url) = true →
      (i0 + i + 1, page_filename (i0 + i) url) ∈ download_go fe fo i0 urls
  | [], _, i, url => by simp
  | u :: rest, i0, 0, url => by
    intro h hs
    simp only [List.getElem?_cons_zero, Option.some_inj] at h
    subst h
    simp only [Nat.add_zero] at hs ⊢
    rw [download_go_cons, if_pos hs]
    exact List.mem_cons_self _ _
  | u :: rest, i0, i + 1, url => by
    intro h hs
    simp only [List.getElem?_cons_succ] at h
    have harith : i0 + (i + 1) = i0 + 1 + i := by omega
    rw [harith] at hs ⊢
    have ih := download_go_mem_pair fe fo rest (i0 + 1) i url h hs
    rw [download_go_cons]
    split
    · exact List.mem_cons_of_mem _ ih
    · exact ih

theorem page_filename_noquery (i : Nat) (b e : List Char)
    (he : '.' ∉ e) (he2 : '?' ∉ e) :
    page_filename i (b ++ '.' :: e) =
      "downloads/page_".data ++ Nat.toDigits 10 (i + 1) ++ '.' :: e := by
  simp only [page_filename]
  rw [splitChar_append_cons '.' b e, splitChar_of_not_mem _ _ he,
    List.getLastD_concat, splitChar_of_not_mem _ _ he2]
  rfl

/-- C4 counterexample: the locations end in "pN.jpg?v=1.2" and each fetch
succeeds, yet the third is written as "downloads/page_3.2" — the post-dot
fragment of the query string, not the source extension "jpg" with the query
suffix stripped (which would be "downloads/page_3.jpg") — because the code
takes the substring after the LAST dot anywhere in the location before
truncating at "?". -/
theorem C4_counterexample :
    download_all_images (fun _ => false) (fun _ => true)
      ["x/p1.jpg?v=1.2".data, "x/p2.jpg?v=1.2".data, "x/p3.jpg?v=1.2".data] =
      ["downloads/page_1.2".data, "downloads/page_2.2".data,
       "downloads/page_3.2".data] ∧
    "downloads/page_3.2".data ≠ "downloads/page_3.jpg".data := by
  exact ⟨by decide, by decide⟩

/-- C4 (amended): a location fetched successfully at 0-based loop index i is
written to the scratch directory as "downloads/page_" ++ (i+1) ++ "." ++ e —
the name encoding the page index and keeping the source extension e with any
query-string suffix stripped — provided the query string, when present,
contains no dot: both for a location b ++ "." ++ e ++ "?" ++ q and for a
query-less location b ++ "." ++ e.  When the query string contains a dot the
post-dot fragment becomes the extension instead (see the counterexample). -/
theorem C4_scratch_extension (fe fo : List Char → Bool)
    (urls : List (List Char)) (i : Nat) (b e q : List Char)
    (he : '.' ∉ e) (he2 : '?' ∉ e) (hq : '.' ∉ q) :
    (urls[i]? = some (b ++ '.' :: (e ++ '?' :: q)) →
      fo (b ++ '.' :: (e ++ '?' :: q)) = true →
      page_filename i (b ++ '.' :: (e ++ '?' :: q)) =
        "downloads/page_".data ++ Nat.toDigits 10 (i + 1) ++ '.' :: e ∧
      ("downloads/page_".data ++ Nat.toDigits 10 (i + 1) ++ '.' :: e) ∈
        download_all_images fe fo urls) ∧
    (urls[i]? = some (b ++ '.' :: e) →
      fo (b ++ '.' :: e) = true →
      page_filename i (b ++ '.' :: e) =
        "downloads/page_".data ++ Nat.toDigits 10 (i + 1) ++ '.' :: e ∧
      ("downloads/page_".data ++ Nat.toDigits 10 (i + 1) ++ '.' :: e) ∈
        download_all_images fe fo urls) := by
  constructor
  · intro hurl hfetch
    have hpf := page_filename_query i b e q he he2 hq
    refine ⟨hpf, ?_⟩
    have hs : (fe (page_filename (0 + i) (b ++ '.' :: (e ++ '?' :: q)))
        || fo (b ++ '.' :: (e ++ '?' :: q))) = true := by
      simp [hfetch]
    have hmem := download_go_mem_pair fe fo urls 0 i _ hurl hs
    rw [← hpf]
    have hm2 := List.mem_map_of_mem Prod.snd hmem
    simp only [Nat.zero_add] at hm2
    exact hm2
  · intro hurl hfetch
    have hpf := page_filename_noquery i b e he he2
    refine ⟨hpf, ?_⟩
    have hs : (fe (page_filename (0 + i) (b ++ '.' :: e))
        || fo (b ++ '.' :: e)) = true := by
      simp [hfetch]
    have hmem := download_go_mem_pair fe fo urls 0 i _ hurl hs
    rw [← hpf]
    have hm2 := List.mem_map_of_mem Prod.snd hmem
    simp only [Nat.zero_add] at hm2
    exact hm2

/-- C4 witness: the third location "x/p3.jpg?v=2" (0-based index 2), whose
query string "v=2" contains no dot, fetched successfully, yields the scratch
file "downloads/page_3.jpg". -/
theorem C4_witness :
    ('.' ∉ "jpg".data ∧ '?' ∉ "jpg".data ∧ '.' ∉ "v=2".data) ∧
    ((["x/p1.jpg?v=2".data, "x/p2.jpg?v=2".data, "x/p3.jpg?v=2".data] :
        List (List Char))[2]? =
      some ("x/p3".data ++ '.' :: ("jpg".data ++ '?' :: "v=2".data))) ∧
    "downloads/page_3.jpg".data ∈
      download_all_images (fun _ => false) (fun _ => true)
        ["x/p1.jpg?v=2".data, "x/p2.jpg?v=2".data, "x/p3.jpg?v=2".data] := by
  refine ⟨⟨by decide, by decide, by decide⟩, by decide, ?_⟩
  have h := (C4_scratch_extension (fun _ => false) (fun _ => true)
    ["x/p1.jpg?v=2".data, "x/p2.jpg?v=2".data, "x/p3.jpg?v=2".data] 2
    "x/p3".data "jpg".data "v=2".data (by decide) (by decide) (by decide)).1
    (by decide) rfl
  have h2 := h.2
  have heq : "downloads/page_".data ++ Nat.toDigits 10 (2 + 1) ++
      '.' :: "jpg".data = "downloads/page_3.jpg".data := by decide
  rw [heq] at h2
  exact h2

/-- C5: on a non-empty asset sequence the assembler creates the document
with canvas format equal to the first asset's raster dimensions, appends
exactly one page per asset in input (ascending index) order, and every page
uses that single fixed canvas size regardless of later assets' own
dimensions. -/
theorem C5_convert_fixed_canvas (imgSize : List Char → Nat × Nat)
    (p0 : List Char) (rest : List (List Char)) :
    ∃ pages,
      convert_images_to_pdf imgSize (p0 :: rest) = some (imgSize p0, pages) ∧
      pages.length = (p0 :: rest).length ∧
      (∀ pg ∈ pages, pg.canvas = imgSize p0) ∧
      pages.map PdfPage.imagePath = (p0 :: rest).map raster_path := by
  refine ⟨(p0 :: rest).map (fun p =>
    { canvas := imgSize p0, imagePath := raster_path p, x := -50, y := -50,
      w := (imgSize p0).1 + 100, h := (imgSize p0).2 + 100 }), rfl, ?_, ?_, ?_⟩
  · simp
  · intro pg hpg
    rw [List.mem_map] at hpg
    obtain ⟨p, _, rfl⟩ := hpg
    rfl
  · rw [List.map_map]
    rfl

/-- C10: applied to an empty asset sequence (every fetch failed), the
assembler fails when reading the first asset's dimensions
(`Image.open(image_paths[0])` raises IndexError) instead of producing an
empty output document. -/
theorem C10_convert_empty_fails (imgSize : List Char → Nat × Nat) :
    convert_images_to_pdf imgSize [] = none := rfl

/-- C6 counterexample: with no file cached, fetching the single location "u"
issues exactly one HTTP request, and that request carries no timeout, so the
per-page GET is not issued with an explicit timeout. -/
theorem C6_counterexample :
    download_requests (fun _ => false) 0 ["u".data] =
      [{ url := "u".data, timeout := none }] ∧
    ({ url := "u".data, timeout := none } : HttpRequest).timeout.isSome =
      false := by
  exact ⟨rfl, rfl⟩

/-- C6 (amended): every HTTP request the fetch loop issues is a plain
`requests.get(url)` carrying no timeout argument, so no per-page retrieval
is bounded by an explicit timeout. -/
theorem C6_requests_have_no_timeout (fe : List Char → Bool) :
    ∀ (urls : List (List Char)) (i0 : Nat) (r : HttpRequest),
      r ∈ download_requests fe i0 urls → r.timeout = none
  | [], i0, r => by simp [download_requests]
  | url :: rest, i0, r => by
    simp only [download_requests]
    split
    · exact C6_requests_have_no_timeout fe rest (i0 + 1) r
    · intro h
      rcases List.mem_cons.mp h with h | h
      · rw [h]
        rfl
      · exact C6_requests_have_no_timeout fe rest (i0 + 1) r h

/-- C6 witness: the request issued for the location "u" is in the fetch
loop's request trace and carries no timeout. -/
theorem C6_witness :
    ({ url := "u".data, timeout := none } : HttpRequest) ∈
      download_requests (fun _ => false) 0 ["u".data] ∧
    ({ url := "u".data, timeout := none } : HttpRequest).timeout = none := by
  refine ⟨by decide, ?_⟩
  exact C6_requests_have_no_timeout (fun _ => false) ["u".data] 0 _ (by decide)

theorem parse_document_info_some (soup : Soup) (desc : List Char)
    (hdesc : soup.metaDesc = some desc) :
    parse_document_info soup =
      (if containsSub "Length:".data desc = true then
        match parsed_length desc with
        | none => .error .badLength
        | some length =>
          match soup.pageImgSrc with
          | none => .error .noPageImg
          | some src => .ok (parsed_title desc, length, src)
      else .error .noLength) := by
  rw [parse_document_info, hdesc]

/-- C7: when the metadata description is present but contains no "Title:"
substring, parse_document_info does not fail on that account: any successful
result carries the fixed placeholder title "CalameoBook", and whenever the
remaining fields are in order (a parsable "Length:" field and a page image)
it does succeed, with that placeholder title. -/
theorem C7_missing_title_defaults (soup : Soup) (desc : List Char)
    (hdesc : soup.metaDesc = some desc)
    (htitle : containsSub "Title:".data desc = false) :
    (∀ t n u, parse_document_info soup = .ok (t, n, u) →
      t = "CalameoBook".data) ∧
    (∀ n, containsSub "Length:".data desc = true →
      parsed_length desc = some n →
      ∀ src, soup.pageImgSrc = some src →
        parse_document_info soup = .ok ("CalameoBook".data, n, src)) := by
  have htd : parsed_title desc = "CalameoBook".data := by
    rw [parsed_title, htitle]
    simp
  have heq := parse_document_info_some soup desc hdesc
  constructor
  · intro t n u h
    rw [heq] at h
    split at h
    · cases hpl : parsed_length desc with
      | none => rw [hpl] at h; exact absurd h (by simp)
      | some m =>
        rw [hpl] at h
        cases hsrc : soup.pageImgSrc with
        | none => rw [hsrc] at h; exact absurd h (by simp)
        | some src =>
          rw [hsrc, htd] at h
          simp only [Except.ok.injEq, Prod.mk.injEq] at h
          exact h.1.symm
    · exact absurd h (by simp)
  · intro n hlen hpl src hsrc
    rw [heq, if_pos hlen, hpl, hsrc, htd]

/-- C7 witness: markup whose description is "Length: 12 pages" (no "Title:"
substring) with a page image present parses successfully with the
placeholder title "CalameoBook". -/
theorem C7_witness :
    (({ metaDesc := some "Length: 12 pages".data,
        pageImgSrc := some "x/p1.jpg".data } : Soup).metaDesc =
      some "Length: 12 pages".data) ∧
    containsSub "Title:".data "Length: 12 pages".data = false ∧
    parse_document_info
      { metaDesc := some "Length: 12 pages".data,
        pageImgSrc := some "x/p1.jpg".data } =
      .ok ("CalameoBook".data, 12, "x/p1.jpg".data) := by
  refine ⟨rfl, by decide, ?_⟩
  exact (C7_missing_title_defaults
    { metaDesc := some "Length: 12 pages".data,
      pageImgSrc := some "x/p1.jpg".data }
    "Length: 12 pages".data rfl (by decide)).2 12 (by decide) (by rfl) _ rfl

/-- C8 counterexample: markup declaring "Length: 0 pages" (with a page image
present) parses successfully with page count 0, so a returned descriptor
does not always satisfy pageCount ≥ 1. -/
theorem C8_counterexample :
    parse_document_info
      { metaDesc := some "Title: T, Author: A, Length: 0 pages".data,
        pageImgSrc := some "x/p1.jpg".data } =
      .ok ("T".data, 0, "x/p1.jpg".data) ∧
    ¬ (1 ≤ (0 : Int)) := by
  exact ⟨by rfl, by decide⟩

/-- C8 (amended): a successful parse_document_info returns as page count
exactly the integer parsed out of the "Length: ... pages" field of the
description; no positivity check is applied, so pageCount ≥ 1 holds only
when the markup itself declares a count ≥ 1. -/
theorem C8_pageCount_from_markup (soup : Soup) (t u : List Char) (n : Int)
    (h : parse_document_info soup = .ok (t, n, u)) :
    ∃ desc, soup.metaDesc = some desc ∧ parsed_length desc = some n := by
  cases hdesc : soup.metaDesc with
  | none =>
    rw [parse_document_info, hdesc] at h
    exact absurd h (by simp)
  | some desc =>
    refine ⟨desc, rfl, ?_⟩
    rw [parse_document_info_some soup desc hdesc] at h
    split at h
    · cases hpl : parsed_length desc with
      | none => rw [hpl] at h; exact absurd h (by simp)
      | some m =>
        rw [hpl] at h
        cases hsrc : soup.pageImgSrc with
        | none => rw [hsrc] at h; exact absurd h (by simp)
        | some src =>
          rw [hsrc] at h
          simp only [Except.ok.injEq, Prod.mk.injEq] at h
          rw [h.2.1]
    · exact absurd h (by simp)

/-- C8 witness: on markup declaring "Length: 7 pages" the returned count 7
is exactly the parsed value of the Length field. -/
theorem C8_witness :
    (parse_document_info
      { metaDesc := some "Length: 7 pages".data,
        pageImgSrc := some "x/p1.jpg".data } =
      .ok ("CalameoBook".data, 7, "x/p1.jpg".data)) ∧
    ∃ desc,
      ({ metaDesc := some "Length: 7 pages".data,
         pageImgSrc := some "x/p1.jpg".data } : Soup).metaDesc = some desc ∧
      parsed_length desc = some 7 := by
  refine ⟨by rfl, ?_⟩
  exact C8_pageCount_from_markup
    { metaDesc := some "Length: 7 pages".data,
      pageImgSrc := some "x/p1.jpg".data }
    "CalameoBook".data "x/p1.jpg".data 7 (by rfl)

/-- C9: in the orchestrator's metadata polling loop, every Page Locator
failure — of any kind, the except-clause swallowing all exceptions alike —
leaves the loop in the polling state for another wait-and-retry iteration;
the loop yields a descriptor only from an iteration whose locate succeeded
(so it exits only on success, with no retry cap); and on markup that
permanently lacks the metadata no number of iterations ever terminates the
loop. -/
theorem C9_poll_loop (soups : Nat → Soup) :
    (∀ k e, parse_document_info (soups k) = .error e →
      poll_step (soups k) none = none) ∧
    (∀ k r, poll_run soups k = some r →
      ∃ j, j < k ∧ parse_document_info (soups j) = .ok r) ∧
    ((∀ j, ∃ e, parse_document_info (soups j) = .error e) →
      ∀ k, poll_run soups k = none) := by
  refine ⟨?_, ?_, ?_⟩
  · intro k e h
    rw [poll_step, h]
  · intro k
    induction k with
    | zero =>
      intro r h
      exact absurd h (by simp [poll_run])
    | succ k ih =>
      intro r h
      rw [poll_run] at h
      cases hprev : poll_run soups k with
      | some r' =>
        rw [hprev] at h
        rw [poll_step] at h
        obtain ⟨j, hj, hok⟩ := ih r' hprev
        simp only [Option.some_inj] at h
        exact ⟨j, Nat.lt_succ_of_lt hj, h ▸ hok⟩
      | none =>
        rw [hprev] at h
        rw [poll_step] at h
        cases hp : parse_document_info (soups k) with
        | ok r2 =>
          rw [hp] at h
          simp only [Option.some_inj] at h
          exact ⟨k, Nat.lt_succ_self k, h ▸ hp⟩
        | error e =>
          rw [hp] at h
          exact absurd h (by simp)
  · intro hall k
    induction k with
    | zero => rfl
    | succ k ih =>
      obtain ⟨e, he⟩ := hall k
      rw [poll_run, ih, poll_step, he]

/-- C9 witness: markup that never contains the metadata description keeps
the loop running; after 3 iterations it has still produced nothing. -/
theorem C9_witness :
    poll_run (fun _ => { metaDesc := none, pageImgSrc := none }) 3 = none :=
  (C9_poll_loop (fun _ => { metaDesc := none, pageImgSrc := none })).2.2
    (fun _ => ⟨.noDescription, rfl⟩) 3
